import Mathlib

/-!
# Zuglang numeral conversion core, shallowly embedded

A verification of the conversion and arithmetic core of
`src/functions/zulang_tool_rooter.js`: the decoder `zuglangToDecimal`
(lines 291-309), the encoder `decimalToZuglang` (lines 316-330), the
arithmetic wrapper `calculateZuglang` (lines 364-399), and the
`startsWith` check its HTTP handler applies to the result (line 581).

JavaScript numbers are modelled as `Nat` for decoded magnitudes (the
decoder only ever accumulates `result * 10 + digit` from `0`) and as
`Int` for arithmetic results (subtraction may go negative). The thrown
`Error` of the decoder is modelled as `Except.error` carrying the same
message text; `calculateZuglang` catches it and returns the message
behind the sentinel text just as the `try/catch` does. The `while`
loop of the encoder is embedded with an explicit fuel argument; the
loop variable strictly decreases under `num = floor(num / 10)`, so any
fuel of at least `num` runs the loop to completion.
-/

/-- The `letterMap` object of `zuglangToDecimal`: letters A-J stand for
the digits 0-9; anything else is absent from the map. -/
def letterMap (c : Char) : Option Nat :=
  if c = 'A' then some 0
  else if c = 'B' then some 1
  else if c = 'C' then some 2
  else if c = 'D' then some 3
  else if c = 'E' then some 4
  else if c = 'F' then some 5
  else if c = 'G' then some 6
  else if c = 'H' then some 7
  else if c = 'I' then some 8
  else if c = 'J' then some 9
  else none

/-- The message carried by the thrown `Error` when a character is not in
`letterMap` (line 303 of the source). -/
def invalidDigitMsg (c : Char) : String :=
  "Invalid Zuglang digit: " ++ String.singleton c ++ ". Must be A-J."

/-- The `for` loop of `zuglangToDecimal`: Horner accumulation
`result = result * 10 + digit` over the character list, failing with the
invalid-digit message at the first character missing from `letterMap`. -/
def decodeDigits : List Char → Nat → Except String Nat
  | [], result => .ok result
  | c :: cs, result =>
    match letterMap c with
    | some d => decodeDigits cs (result * 10 + d)
    | none => .error (invalidDigitMsg c)

/-- `zuglangToDecimal` (lines 291-309): uppercase the input, split it
into characters, and run the accumulation loop from `0`. The call
`zuglangNum.toUpperCase().split('')` is embedded as mapping
`Char.toUpper` over the character data. -/
def zuglangToDecimal (zuglangNum : String) : Except String Nat :=
  decodeDigits (zuglangNum.data.map Char.toUpper) 0

/-- The `digitMap` array of `decimalToZuglang`: the letter for each
decimal digit. -/
def digitMap : List Char := ['A', 'B', 'C', 'D', 'E', 'F', 'G', 'H', 'I', 'J']

/-- The `while (num > 0)` loop of `decimalToZuglang`: prepend the letter
of `num % 10` and continue with `floor (num / 10)`. The loop is embedded
with an explicit fuel bound; fuel at least `num` suffices because `num`
strictly decreases on every iteration. -/
def toZugLoop : Nat → Nat → List Char → List Char
  | 0, _, result => result
  | fuel + 1, num, result =>
    if num = 0 then result
    else toZugLoop fuel (num / 10) (digitMap.getD (num % 10) 'A' :: result)

/-- `decimalToZuglang` (lines 316-330): zero encodes to "A"; otherwise
the digits of the absolute value are extracted least significant first
and assembled most significant first, and a negative input prefixes a
minus sign to the result. -/
def decimalToZuglang (decimalNum : Int) : String :=
  if decimalNum = 0 then "A"
  else if decimalNum < 0 then
    "-" ++ String.mk (toZugLoop decimalNum.natAbs decimalNum.natAbs [])
  else String.mk (toZugLoop decimalNum.natAbs decimalNum.natAbs [])

/-- The success summary template of `calculateZuglang` (line 394): both
operands, the operator, the encoded result, and the decimal breakdown. -/
def mkSuccess (expression1 operator expression2 : String)
    (num1 num2 : Nat) (result : Int) : String :=
  expression1 ++ " " ++ operator ++ " " ++ expression2 ++ " = " ++
    decimalToZuglang result ++ " (" ++ toString num1 ++ " " ++ operator ++ " " ++
    toString num2 ++ " = " ++ toString result ++ " in decimal)"

/-- `calculateZuglang` (lines 364-399): decode both operands (the
`try/catch` turns a thrown decode error into the string
`"Error: " ++ message`), run the operator switch with its
division-by-zero and unknown-operator sentinel returns, encode the
result, and format the summary. -/
def calculateZuglang (expression1 expression2 operator : String) : String :=
  match zuglangToDecimal expression1 with
  | .error msg => "Error: " ++ msg
  | .ok num1 =>
    match zuglangToDecimal expression2 with
    | .error msg => "Error: " ++ msg
    | .ok num2 =>
      if operator = "+" then
        mkSuccess expression1 operator expression2 num1 num2 ((num1 : Int) + (num2 : Int))
      else if operator = "-" then
        mkSuccess expression1 operator expression2 num1 num2 ((num1 : Int) - (num2 : Int))
      else if operator = "*" then
        mkSuccess expression1 operator expression2 num1 num2 ((num1 : Int) * (num2 : Int))
      else if operator = "/" then
        if num2 = 0 then "Error: Division by zero"
        else mkSuccess expression1 operator expression2 num1 num2 ((num1 / num2 : Nat))
      else "Error: Invalid operator " ++ operator

/-- The `result.startsWith('Error:')` test the `zuglang_calculator`
HTTP handler applies to the value returned by `calculateZuglang`
(line 581), embedded as a prefix test on the character data. -/
def zuglangCalculatorIsError (result : String) : Bool :=
  "Error:".data.isPrefixOf result.data

deriving instance DecidableEq for Except

/-- The digit value of a character under `letterMap`, defaulting to 0;
only used on characters the map contains. -/
def dval (c : Char) : Nat := (letterMap c).getD 0

/-- The Horner value of a character list of valid digit letters. -/
def hv (l : List Char) : Nat := l.foldl (fun result c => result * 10 + dval c) 0

/-- Facts about the letter of a decimal digit, checked over all ten
digits at once. -/
theorem digit_facts : ∀ d, d < 10 →
    digitMap.getD d 'A' ∈ digitMap ∧
    Char.toUpper (digitMap.getD d 'A') = digitMap.getD d 'A' ∧
    letterMap (digitMap.getD d 'A') = some d ∧
    (d ≠ 0 → digitMap.getD d 'A' ≠ 'A') := by decide

/-- Facts about a valid digit letter, checked over all ten letters at
once. -/
theorem char_facts : ∀ c ∈ digitMap,
    letterMap c = some (dval c) ∧
    dval c < 10 ∧
    dval c = c.toNat - 'A'.toNat ∧
    digitMap.getD (dval c) 'A' = c ∧
    Char.toUpper c = c ∧
    (c ≠ 'A' → dval c ≠ 0) := by decide

theorem toZugLoop_zero (f : Nat) (acc : List Char) : toZugLoop f 0 acc = acc := by
  cases f <;> simp [toZugLoop]

theorem toZugLoop_acc (f : Nat) : ∀ n acc, toZugLoop f n acc = toZugLoop f n [] ++ acc := by
  induction f with
  | zero => intro n acc; simp [toZugLoop]
  | succ f ih =>
    intro n acc
    by_cases h : n = 0
    · simp [toZugLoop, h]
    · simp only [toZugLoop, if_neg h]
      rw [ih (n / 10) (digitMap.getD (n % 10) 'A' :: acc),
        ih (n / 10) [digitMap.getD (n % 10) 'A']]
      simp

theorem toZugLoop_mem (f : Nat) :
    ∀ n acc c, c ∈ toZugLoop f n acc → c ∈ digitMap ∨ c ∈ acc := by
  induction f with
  | zero => intro n acc c h; exact Or.inr h
  | succ f ih =>
    intro n acc c h
    by_cases h0 : n = 0
    · simp only [toZugLoop, if_pos h0] at h; exact Or.inr h
    · simp only [toZugLoop, if_neg h0] at h
      rcases ih (n / 10) _ c h with hd | hacc
      · exact Or.inl hd
      · rcases List.mem_cons.mp hacc with hc | hc
        · subst hc
          exact Or.inl (digit_facts (n % 10) (Nat.mod_lt n (by norm_num))).1
        · exact Or.inr hc

/-- Decoding what the encoder loop produced: the loop output prepends the
digits of `num` to the accumulator, so running the decoder over it shifts
any partial result by one power of ten per digit and adds `num`. -/
theorem decode_toZugLoop (f : Nat) : ∀ n acc r, n ≤ f →
    decodeDigits (toZugLoop f n acc) r =
      decodeDigits acc (r * 10 ^ (toZugLoop f n []).length + n) := by
  induction f with
  | zero =>
    intro n acc r h
    have hn : n = 0 := Nat.le_zero.mp h
    subst hn
    simp [toZugLoop]
  | succ f ih =>
    intro n acc r h
    by_cases h0 : n = 0
    · subst h0
      simp [toZugLoop]
    · simp only [toZugLoop, if_neg h0]
      have hdiv : n / 10 ≤ f := by omega
      rw [ih (n / 10) _ r hdiv]
      have hmap : letterMap (digitMap.getD (n % 10) 'A') = some (n % 10) :=
        (digit_facts (n % 10) (Nat.mod_lt n (by norm_num))).2.2.1
      have hlen : (toZugLoop f (n / 10) [digitMap.getD (n % 10) 'A']).length =
          (toZugLoop f (n / 10) []).length + 1 := by
        rw [toZugLoop_acc f (n / 10) [digitMap.getD (n % 10) 'A']]
        simp
      rw [hlen]
      simp only [decodeDigits, hmap]
      congr 1
      rw [pow_succ, ← mul_assoc]
      generalize r * 10 ^ (toZugLoop f (n / 10) []).length = q
      omega

/-- On a list of valid digit letters the decoder cannot fail: it returns
the Horner accumulation started from `r`. -/
theorem decode_valid : ∀ (l : List Char) (r : Nat), (∀ c ∈ l, c ∈ digitMap) →
    decodeDigits l r = .ok (l.foldl (fun result c => result * 10 + dval c) r) := by
  intro l
  induction l with
  | nil => intro r _; rfl
  | cons c cs ih =>
    intro r h
    have hc := (char_facts c (h c (List.mem_cons_self c cs))).1
    simp only [decodeDigits, hc, List.foldl_cons]
    exact ih (r * 10 + dval c) (fun x hx => h x (List.mem_cons_of_mem c hx))

/-- Round trip on a nonnegative value: decoding the encoding of a natural
number returns it. -/
theorem roundtrip_nat (n : Nat) : zuglangToDecimal (decimalToZuglang (n : Int)) = .ok n := by
  by_cases h0 : n = 0
  · subst h0; decide
  · have hz : (n : Int) ≠ 0 := by exact_mod_cast h0
    have hneg : ¬ ((n : Int) < 0) := by omega
    have habs : (n : Int).natAbs = n := Int.natAbs_ofNat n
    simp only [decimalToZuglang, if_neg hz, if_neg hneg, habs]
    have hchars : ∀ c ∈ toZugLoop n n [], c ∈ digitMap := by
      intro c hc
      rcases toZugLoop_mem n n [] c hc with h | h
      · exact h
      · cases h
    have hupper : (toZugLoop n n []).map Char.toUpper = toZugLoop n n [] := by
      have hfix : ∀ c ∈ toZugLoop n n [], Char.toUpper c = c := fun c hc =>
        (char_facts c (hchars c hc)).2.2.2.2.1
      calc (toZugLoop n n []).map Char.toUpper
          = (toZugLoop n n []).map id := List.map_congr_left hfix
        _ = toZugLoop n n [] := List.map_id _
    show decodeDigits ((toZugLoop n n []).map Char.toUpper) 0 = .ok n
    rw [hupper, decode_toZugLoop n n [] 0 le_rfl]
    simp [decodeDigits]

/-- A Horner accumulation never drops below its starting value. -/
theorem hv_foldl_ge : ∀ (l : List Char) (r : Nat),
    r ≤ l.foldl (fun result c => result * 10 + dval c) r := by
  intro l
  induction l with
  | nil => intro r; exact le_rfl
  | cons c cs ih =>
    intro r
    calc r ≤ r * 10 + dval c := by omega
      _ ≤ _ := ih (r * 10 + dval c)

/-- Leading zero digits do not change the Horner value started from 0. -/
theorem hv_dropWhile (l : List Char) :
    hv (l.dropWhile (fun c => c == 'A')) = hv l := by
  induction l with
  | nil => rfl
  | cons c cs ih =>
    by_cases hc : c = 'A'
    · subst hc
      rw [List.dropWhile_cons_of_pos (by rfl), ih]
      simp [hv, dval, letterMap]
    · rw [List.dropWhile_cons_of_neg (by simpa using hc)]

/-- The first element surviving `dropWhile` falsifies the predicate. -/
theorem dropWhile_head_false {p : Char → Bool} :
    ∀ (l : List Char) (c : Char) (t : List Char),
      l.dropWhile p = c :: t → p c = false := by
  intro l
  induction l with
  | nil => intro c t h; cases h
  | cons a l' ih =>
    intro c t h
    by_cases ha : p a
    · rw [List.dropWhile_cons_of_pos ha] at h
      exact ih c t h
    · rw [List.dropWhile_cons_of_neg ha] at h
      cases h
      exact Bool.of_not_eq_true ha

/-- Re-encoding a canonical digit string: if a valid digit list has no
leading zero letter, encoding its Horner value gives the list back,
for any sufficient fuel. -/
theorem toZugLoop_hv : ∀ (t : List Char), (∀ c ∈ t, c ∈ digitMap) →
    (∀ c, t.head? = some c → c ≠ 'A') → ∀ f, hv t ≤ f →
    toZugLoop f (hv t) [] = t := by
  intro t
  induction t using List.reverseRecOn with
  | nil =>
    intro _ _ f _
    exact toZugLoop_zero f []
  | append_singleton t1 a ih =>
    intro hvalid hhead f hf
    have ha : a ∈ digitMap := hvalid a (List.mem_append_right t1 (List.mem_singleton.mpr rfl))
    have hafacts := char_facts a ha
    have hvt : hv (t1 ++ [a]) = hv t1 * 10 + dval a := by
      simp [hv, List.foldl_append]
    cases t1 with
    | nil =>
      have hane : a ≠ 'A' := hhead a (by simp)
      have hdva : dval a ≠ 0 := hafacts.2.2.2.2.2 hane
      have hdva10 : dval a < 10 := hafacts.2.1
      have hv1 : hv ([] ++ [a]) = dval a := by simp [hv]
      rw [hv1] at hf ⊢
      cases f with
      | zero => omega
      | succ f' =>
        simp only [toZugLoop, if_neg hdva]
        rw [Nat.div_eq_of_lt hdva10, Nat.mod_eq_of_lt hdva10]
        rw [toZugLoop_zero, hafacts.2.2.2.1]
        rfl
    | cons c0 t1' =>
      have hc0 : c0 ≠ 'A' := hhead c0 (by simp)
      have hc0mem : c0 ∈ digitMap := hvalid c0 (by simp)
      have hc0facts := char_facts c0 hc0mem
      have hv1pos : 1 ≤ hv (c0 :: t1') := by
        have h1 : dval c0 ≠ 0 := hc0facts.2.2.2.2.2 hc0
        have h2 : dval c0 ≤ hv (c0 :: t1') := by
          have := hv_foldl_ge t1' (0 * 10 + dval c0)
          simpa [hv] using this
        omega
      rw [hvt] at hf ⊢
      have hd10 : dval a < 10 := hafacts.2.1
      cases f with
      | zero => omega
      | succ f' =>
        have hne : hv (c0 :: t1') * 10 + dval a ≠ 0 := by omega
        simp only [toZugLoop, if_neg hne]
        have hdiv : (hv (c0 :: t1') * 10 + dval a) / 10 = hv (c0 :: t1') := by omega
        have hmod : (hv (c0 :: t1') * 10 + dval a) % 10 = dval a := by omega
        rw [hdiv, hmod, hafacts.2.2.2.1]
        rw [toZugLoop_acc]
        rw [ih (fun c hc => hvalid c (List.mem_append_left [a] hc))
          (fun c hc => by
            simp only [List.head?_cons, Option.some.injEq] at hc
            exact hc ▸ hc0) f' (by omega)]

/-- For a nonzero value the encoder loop output is nonempty and its
leading letter is not the zero letter. -/
theorem toZugLoop_head : ∀ (f n : Nat), n ≠ 0 → n ≤ f →
    ∃ c t, toZugLoop f n [] = c :: t ∧ c ≠ 'A' ∧ c ∈ digitMap := by
  intro f
  induction f with
  | zero => intro n h0 hle; omega
  | succ f ih =>
    intro n h0 hle
    simp only [toZugLoop, if_neg h0]
    by_cases hq : n / 10 = 0
    · have hn10 : n < 10 := by omega
      have hmod : n % 10 = n := Nat.mod_eq_of_lt hn10
      rw [hq, toZugLoop_zero, hmod]
      exact ⟨digitMap.getD n 'A', [],
        rfl, (digit_facts n hn10).2.2.2 h0, (digit_facts n hn10).1⟩
    · obtain ⟨c, t, heq, hne, hmem⟩ := ih (n / 10) hq (by omega)
      rw [toZugLoop_acc, heq]
      exact ⟨c, t ++ [digitMap.getD (n % 10) 'A'], by simp, hne, hmem⟩

/-- The decoder fails with the invalid-digit message of the first
character missing from the letter map. -/
theorem decode_find : ∀ (l : List Char) (r : Nat) (c : Char),
    l.find? (fun c => (letterMap c).isNone) = some c →
    decodeDigits l r = .error (invalidDigitMsg c) := by
  intro l
  induction l with
  | nil => intro r c h; cases h
  | cons a l' ih =>
    intro r c h
    cases hma : letterMap a with
    | none =>
      have hpa : (fun c => (letterMap c).isNone) a = true := by simp only [hma]; rfl
      rw [List.find?_cons_of_pos (p := fun c => (letterMap c).isNone) l' hpa] at h
      cases h
      simp [decodeDigits, hma]
    | some d =>
      have hpa : ¬ ((fun c => (letterMap c).isNone) a = true) := by simp [hma]
      rw [List.find?_cons_of_neg (p := fun c => (letterMap c).isNone) l' hpa] at h
      simp only [decodeDigits, hma]
      exact ih (r * 10 + d) c h

/-- Any character list beginning with the six characters of "Error:"
passes the prefix test of the handler. -/
theorem isPrefixOf_error (l : List Char) :
    List.isPrefixOf "Error:".data ('E' :: 'r' :: 'r' :: 'o' :: 'r' :: ':' :: l) = true := by
  have h : "Error:".data = ['E', 'r', 'r', 'o', 'r', ':'] := rfl
  rw [h]
  simp [List.isPrefixOf]

/-- A message behind the "Error: " sentinel is flagged by the handler. -/
theorem errorStringFlagged (t : String) :
    zuglangCalculatorIsError ("Error: " ++ t) = true := by
  show List.isPrefixOf "Error:".data ("Error: " ++ t).data = true
  rw [String.data_append]
  exact isPrefixOf_error (' ' :: t.data)

/-- The invalid-operator sentinel string is flagged by the handler. -/
theorem invalidOperatorFlagged (op : String) :
    zuglangCalculatorIsError ("Error: Invalid operator " ++ op) = true := by
  show List.isPrefixOf "Error:".data ("Error: Invalid operator " ++ op).data = true
  rw [String.data_append]
  exact isPrefixOf_error
    (' ' :: 'I' :: 'n' :: 'v' :: 'a' :: 'l' :: 'i' :: 'd' :: ' ' ::
     'o' :: 'p' :: 'e' :: 'r' :: 'a' :: 't' :: 'o' :: 'r' :: ' ' :: op.data)

/-- Modelled from the spec: the Horner accumulation
`result = result * 10 + digit` over the case-normalized string, with the
letters A-J mapped to 0-9 by alphabet position. -/
def hornerSpec (s : String) : Nat :=
  (s.data.map Char.toUpper).foldl (fun result c => result * 10 + (c.toNat - 'A'.toNat)) 0

/-- Modelled from the spec: the case-normalized digit sequence of a
numeral-string with superfluous leading zero letters removed, collapsing
to the single zero letter when every digit is zero. -/
def strippedUpper (s : String) : List Char :=
  match (s.data.map Char.toUpper).dropWhile (fun c => c == 'A') with
  | [] => ['A']
  | t => t

/-- On valid digit letters the implementation accumulation and the
spec-side alphabet-position accumulation agree. -/
theorem foldl_dval_eq_spec : ∀ (l : List Char) (r : Nat), (∀ c ∈ l, c ∈ digitMap) →
    l.foldl (fun result c => result * 10 + dval c) r =
      l.foldl (fun result c => result * 10 + (c.toNat - 'A'.toNat)) r := by
  intro l
  induction l with
  | nil => intro r _; rfl
  | cons c cs ih =>
    intro r h
    have hc := (char_facts c (h c (List.mem_cons_self c cs))).2.2.1
    simp only [List.foldl_cons]
    rw [← hc]
    exact ih _ (fun x hx => h x (List.mem_cons_of_mem c hx))

/-- C10: the decoder accepts the empty string and returns 0, because the
accumulation loop body never runs; no empty-input rejection happens in
`zuglangToDecimal`. -/
theorem c10_empty_decodes_to_zero : zuglangToDecimal "" = .ok 0 := by decide

/-- C1 counterexample: the claimed round trip fails for negative inputs.
Encoding -5 yields "-F", whose leading minus sign the decoder rejects as
an invalid digit instead of returning -5. -/
theorem c1_negative_roundtrip_fails :
    decimalToZuglang (-5) = "-F" ∧
    zuglangToDecimal (decimalToZuglang (-5)) = .error (invalidDigitMsg '-') := by decide

/-- C1 (amended): for every integer n in [0, 10000], decoding the
encoding of n returns n; for negative n the encoding carries a leading
minus sign, which the decoder rejects as an invalid digit. -/
theorem c1_roundtrip_nonneg (n : Int) (h0 : 0 ≤ n) (h1 : n ≤ 10000) :
    zuglangToDecimal (decimalToZuglang n) = .ok n.toNat := by
  obtain ⟨m, rfl⟩ := Int.eq_ofNat_of_zero_le h0
  simpa using roundtrip_nat m

/-- C1 witness: the amended round trip at the concrete input 37. -/
theorem c1_roundtrip_nonneg_witness :
    zuglangToDecimal (decimalToZuglang 37) = .ok ((37 : Int)).toNat :=
  c1_roundtrip_nonneg 37 (by decide) (by decide)

/-- C4: on a non-empty string whose uppercased characters all lie in
A-J, the decoder succeeds with the left-to-right Horner accumulation of
the digit values (spec-side table by alphabet position), and the
concrete values and case-insensitive behaviour from the spec hold. -/
theorem c4_decoder_horner (s : String) (_h1 : s ≠ "")
    (h2 : ∀ c ∈ s.data.map Char.toUpper, c ∈ digitMap) :
    zuglangToDecimal s = .ok (hornerSpec s) ∧
    zuglangToDecimal "A" = .ok 0 ∧ zuglangToDecimal "BC" = .ok 12 ∧
    zuglangToDecimal "CF" = .ok 25 ∧ zuglangToDecimal "bc" = .ok 12 := by
  refine ⟨?_, by decide, by decide, by decide, by decide⟩
  show decodeDigits (s.data.map Char.toUpper) 0 = .ok (hornerSpec s)
  rw [decode_valid _ 0 h2]
  simp only [hornerSpec]
  rw [foldl_dval_eq_spec _ 0 h2]

/-- C4 witness: the Horner contract at the concrete input "BC". -/
theorem c4_decoder_horner_witness :
    zuglangToDecimal "BC" = .ok (hornerSpec "BC") ∧
    zuglangToDecimal "A" = .ok 0 ∧ zuglangToDecimal "BC" = .ok 12 ∧
    zuglangToDecimal "CF" = .ok 25 ∧ zuglangToDecimal "bc" = .ok 12 :=
  c4_decoder_horner "BC" (by decide) (by decide)

/-- C7: when the uppercased input contains a character outside the
letter map, the decoder fails with the invalid-digit error naming the
first such character. -/
theorem c7_invalid_digit_error (s : String) (c : Char)
    (h : (s.data.map Char.toUpper).find? (fun c => (letterMap c).isNone) = some c) :
    zuglangToDecimal s = .error (invalidDigitMsg c) :=
  decode_find _ 0 c h

/-- C7 witness: decoding "BK" fails naming the offending character K. -/
theorem c7_invalid_digit_error_witness :
    zuglangToDecimal "BK" = .error (invalidDigitMsg 'K') :=
  c7_invalid_digit_error "BK" 'K' (by decide)

/-- C8: for valid operands, any operator outside the fixed four produces
the invalid-operator failure. -/
theorem c8_invalid_operator (x y op : String) (a b : Nat)
    (hx : zuglangToDecimal x = .ok a) (hy : zuglangToDecimal y = .ok b)
    (hop : op ∉ (["+", "-", "*", "/"] : List String)) :
    calculateZuglang x y op = "Error: Invalid operator " ++ op := by
  simp only [List.mem_cons, List.mem_singleton] at hop
  push_neg at hop
  obtain ⟨h1, h2, h3, h4, -⟩ := hop
  simp only [calculateZuglang, hx, hy, if_neg h1, if_neg h2, if_neg h3, if_neg h4]

/-- C8 witness: the invalid-operator failure at the concrete operator of
the spec example. -/
theorem c8_invalid_operator_witness :
    calculateZuglang "BC" "CF" "%" = "Error: Invalid operator %" :=
  (c8_invalid_operator "BC" "CF" "%" 12 25 (by decide) (by decide) (by decide)).trans
    (by decide)

/-- C2 counterexample: the division-by-zero failure of `calculateZuglang`
is returned as the sentinel string "Error: Division by zero", in the same
string type as successful results, and the HTTP handler recognizes it
exactly by prefix-matching on "Error:"; no tagged outcome is produced. -/
theorem c2_failure_is_sentinel_string :
    calculateZuglang "B" "A" "/" = "Error: Division by zero" ∧
    zuglangCalculatorIsError (calculateZuglang "B" "A" "/") = true := by decide

/-- C2 (amended): every failure of `calculateZuglang` (invalid digit in
either operand, invalid operator, division by zero) is returned as a
string carrying the "Error:" prefix, which the caller recognizes by
prefix-matching, the startsWith test of the handler. -/
theorem c2_amended_failures_are_error_prefixed (x y op : String)
    (h : (∃ m, zuglangToDecimal x = .error m) ∨ (∃ m, zuglangToDecimal y = .error m) ∨
      op ∉ (["+", "-", "*", "/"] : List String) ∨
      (op = "/" ∧ zuglangToDecimal y = .ok 0)) :
    zuglangCalculatorIsError (calculateZuglang x y op) = true := by
  cases hx : zuglangToDecimal x with
  | error m =>
    simp only [calculateZuglang, hx]
    exact errorStringFlagged m
  | ok a =>
    cases hy : zuglangToDecimal y with
    | error m =>
      simp only [calculateZuglang, hx, hy]
      exact errorStringFlagged m
    | ok b =>
      rcases h with ⟨m, hm⟩ | ⟨m, hm⟩ | hop | ⟨hop, hy0⟩
      · rw [hx] at hm; cases hm
      · rw [hy] at hm; cases hm
      · simp only [List.mem_cons, List.mem_singleton] at hop
        push_neg at hop
        obtain ⟨h1, h2, h3, h4, -⟩ := hop
        simp only [calculateZuglang, hx, hy, if_neg h1, if_neg h2, if_neg h3, if_neg h4]
        exact invalidOperatorFlagged op
      · subst hop
        rw [hy] at hy0
        have hb : b = 0 := Except.ok.inj hy0
        subst hb
        simp only [calculateZuglang, hx, hy]
        show zuglangCalculatorIsError "Error: Division by zero" = true
        decide

/-- C2 witness: the amended failure-reporting statement at the concrete
division-by-zero input. -/
theorem c2_amended_failures_are_error_prefixed_witness :
    zuglangCalculatorIsError (calculateZuglang "B" "A" "/") = true :=
  c2_amended_failures_are_error_prefixed "B" "A" "/"
    (Or.inr (Or.inr (Or.inr ⟨rfl, by decide⟩)))

/-- C3: whenever the second operand decodes to zero, division produces
the division-by-zero failure, which differs from every invalid-digit
failure string and from every successful summary string, and is not a
numeric result. -/
theorem c3_division_by_zero_distinct (x y e1 op e2 : String) (a n1 n2 : Nat)
    (c : Char) (r : Int)
    (hx : zuglangToDecimal x = .ok a) (hy : zuglangToDecimal y = .ok 0) :
    calculateZuglang x y "/" = "Error: Division by zero" ∧
    "Error: Division by zero" ≠ "Error: " ++ invalidDigitMsg c ∧
    "Error: Division by zero" ≠ mkSuccess e1 op e2 n1 n2 r := by
  refine ⟨?_, ?_, ?_⟩
  · simp only [calculateZuglang, hx, hy]
    show "Error: Division by zero" = "Error: Division by zero"
    rfl
  · intro h
    have hlen : ("Error: " ++ invalidDigitMsg c).length = 45 := by
      simp only [invalidDigitMsg]
      rw [String.length_append, String.length_append, String.length_append]
      rfl
    have h2 := congrArg String.length h
    rw [hlen] at h2
    exact absurd h2 (by decide)
  · intro h
    have hp : (')' : Char) ∈ (mkSuccess e1 op e2 n1 n2 r).data := by
      simp only [mkSuccess]
      rw [String.data_append]
      exact List.mem_append_right _ (by decide)
    rw [← h] at hp
    exact absurd hp (by decide)

/-- C3 witness: the division-by-zero distinctness at concrete inputs. -/
theorem c3_division_by_zero_distinct_witness :
    calculateZuglang "B" "A" "/" = "Error: Division by zero" ∧
    "Error: Division by zero" ≠ "Error: " ++ invalidDigitMsg 'K' ∧
    "Error: Division by zero" ≠ mkSuccess "BC" "+" "CF" 12 25 37 :=
  c3_division_by_zero_distinct "B" "A" "BC" "+" "CF" 1 12 25 'K' 37
    (by decide) (by decide)

/-- C9: on every successful invocation, for any of the four operators
(with a nonzero divisor under division), `calculateZuglang` returns the
composite description with both original operands, the operator symbol,
the encoded result and the decimal breakdown; concretely for all four
operators at the spec operands, including the spec example with encoded
result "DH" and breakdown 12 + 25 = 37 and the negative-result
subtraction case. -/
theorem c9_success_composite (x y op : String) (a b : Nat) (r : Int)
    (hx : zuglangToDecimal x = .ok a) (hy : zuglangToDecimal y = .ok b)
    (hop : (op = "+" ∧ r = (a : Int) + (b : Int)) ∨
      (op = "-" ∧ r = (a : Int) - (b : Int)) ∨
      (op = "*" ∧ r = (a : Int) * (b : Int)) ∨
      (op = "/" ∧ b ≠ 0 ∧ r = ((a / b : Nat) : Int))) :
    calculateZuglang x y op =
      x ++ " " ++ op ++ " " ++ y ++ " = " ++ decimalToZuglang r ++
        " (" ++ toString a ++ " " ++ op ++ " " ++ toString b ++ " = " ++
        toString r ++ " in decimal)" ∧
    calculateZuglang "BC" "CF" "+" = "BC + CF = DH (12 + 25 = 37 in decimal)" ∧
    calculateZuglang "BC" "CF" "-" = "BC - CF = -BD (12 - 25 = -13 in decimal)" ∧
    calculateZuglang "BC" "CF" "*" = "BC * CF = DAA (12 * 25 = 300 in decimal)" ∧
    calculateZuglang "BC" "CF" "/" = "BC / CF = A (12 / 25 = 0 in decimal)" := by
  refine ⟨?_, by decide, by decide, by decide, by decide⟩
  rcases hop with ⟨rfl, rfl⟩ | ⟨rfl, rfl⟩ | ⟨rfl, rfl⟩ | ⟨rfl, hb, rfl⟩
  · simp only [calculateZuglang, hx, hy, if_pos rfl]
    rfl
  · simp only [calculateZuglang, hx, hy, if_true]
    rfl
  · simp only [calculateZuglang, hx, hy, if_true]
    rfl
  · simp only [calculateZuglang, hx, hy, if_true]
    rw [if_neg hb]
    rfl

/-- C9 witness: the composite description at the concrete spec operands
under subtraction, whose result is negative. -/
theorem c9_success_composite_witness :
    calculateZuglang "BC" "CF" "-" =
      "BC" ++ " " ++ "-" ++ " " ++ "CF" ++ " = " ++
        decimalToZuglang (((12 : Nat) : Int) - ((25 : Nat) : Int)) ++
        " (" ++ toString (12 : Nat) ++ " " ++ "-" ++ " " ++ toString (25 : Nat) ++ " = " ++
        toString (((12 : Nat) : Int) - ((25 : Nat) : Int)) ++ " in decimal)" ∧
    calculateZuglang "BC" "CF" "+" = "BC + CF = DH (12 + 25 = 37 in decimal)" ∧
    calculateZuglang "BC" "CF" "-" = "BC - CF = -BD (12 - 25 = -13 in decimal)" ∧
    calculateZuglang "BC" "CF" "*" = "BC * CF = DAA (12 * 25 = 300 in decimal)" ∧
    calculateZuglang "BC" "CF" "/" = "BC / CF = A (12 / 25 = 0 in decimal)" :=
  c9_success_composite "BC" "CF" "-" 12 25 (((12 : Nat) : Int) - ((25 : Nat) : Int))
    (by decide) (by decide) (Or.inr (Or.inl ⟨rfl, rfl⟩))

/-- C5: for a non-empty numeral-string over A-J (case-insensitive),
encoding its decoded value reproduces the uppercased string with
superfluous leading zero letters removed, and the result collapses to
"A" exactly when the decoded value is zero. -/
theorem c5_encode_decode_canonical (s : String) (v : Nat) (_h1 : s ≠ "")
    (h2 : ∀ c ∈ s.data.map Char.toUpper, c ∈ digitMap)
    (h3 : zuglangToDecimal s = .ok v) :
    decimalToZuglang (v : Int) = String.mk (strippedUpper s) ∧
    (decimalToZuglang (v : Int) = "A" ↔ v = 0) := by
  have hdec : zuglangToDecimal s = .ok (hv (s.data.map Char.toUpper)) :=
    decode_valid _ 0 h2
  rw [h3] at hdec
  have hveq : v = hv (s.data.map Char.toUpper) := Except.ok.inj hdec
  cases ht : (s.data.map Char.toUpper).dropWhile (fun c => c == 'A') with
  | nil =>
    have hv0 : hv (s.data.map Char.toUpper) = 0 := by
      rw [← hv_dropWhile (s.data.map Char.toUpper), ht]; rfl
    have hvz : v = 0 := by rw [hveq, hv0]
    subst hvz
    have hstrip : strippedUpper s = ['A'] := by
      unfold strippedUpper
      rw [ht]
    rw [hstrip]
    exact ⟨by decide, ⟨fun _ => rfl, fun _ => by decide⟩⟩
  | cons c0 t0 =>
    have hc0f : (c0 == 'A') = false := dropWhile_head_false (s.data.map Char.toUpper) c0 t0 ht
    have hc0 : c0 ≠ 'A' := by simpa using hc0f
    have hmemt : ∀ c ∈ c0 :: t0, c ∈ digitMap := by
      intro c hc
      apply h2
      have hsub := (List.dropWhile_sublist (fun c => c == 'A')
        (l := s.data.map Char.toUpper)).subset
      exact hsub (ht ▸ hc)
    have hc0mem : c0 ∈ digitMap := hmemt c0 (List.mem_cons_self _ _)
    have hpos : 1 ≤ hv (c0 :: t0) := by
      have hd : dval c0 ≠ 0 := (char_facts c0 hc0mem).2.2.2.2.2 hc0
      have hge : dval c0 ≤ hv (c0 :: t0) := by
        simpa [hv] using hv_foldl_ge t0 (0 * 10 + dval c0)
      omega
    have hvt : hv (s.data.map Char.toUpper) = hv (c0 :: t0) := by
      rw [← hv_dropWhile (s.data.map Char.toUpper), ht]
    have hvval : v = hv (c0 :: t0) := hveq.trans hvt
    have hvne : v ≠ 0 := by omega
    have henc : decimalToZuglang (v : Int) = String.mk (c0 :: t0) := by
      have hz : ((v : Nat) : Int) ≠ 0 := by exact_mod_cast hvne
      have hneg : ¬ (((v : Nat) : Int) < 0) := by omega
      simp only [decimalToZuglang, if_neg hz, if_neg hneg, Int.natAbs_ofNat]
      congr 1
      rw [hvval]
      exact toZugLoop_hv (c0 :: t0) hmemt
        (fun c hc => by
          simp only [List.head?_cons, Option.some.injEq] at hc
          exact hc ▸ hc0)
        (hv (c0 :: t0)) le_rfl
    refine ⟨?_, ?_⟩
    · rw [henc]
      have hstrip : strippedUpper s = c0 :: t0 := by
        unfold strippedUpper
        rw [ht]
      rw [hstrip]
    · rw [henc]
      constructor
      · intro habs
        have hdata := congrArg String.data habs
        simp only [String.data] at hdata
        have : c0 = 'A' := by
          have h3 : c0 :: t0 = ['A'] := hdata
          exact (List.cons.inj h3).1
        exact absurd this hc0
      · intro h0
        exact absurd h0 hvne

/-- C5 witness: the canonical round trip at the concrete input "ABC",
whose decoded value 12 re-encodes to "BC". -/
theorem c5_encode_decode_canonical_witness :
    decimalToZuglang ((12 : Nat) : Int) = String.mk (strippedUpper "ABC") ∧
    (decimalToZuglang ((12 : Nat) : Int) = "A" ↔ (12 : Nat) = 0) :=
  c5_encode_decode_canonical "ABC" 12 (by decide) (by decide) (by decide)

/-- C6: the encoder maps 0 to "A"; a negative integer encodes as the
minus sign followed by the encoding of its absolute value, as in the
spec example for -5; and for nonzero n the letters of the encoding of
the absolute value decode back to that absolute value with no leading
zero letter, so they are exactly its base-10 digits most significant
first. -/
theorem c6_encoder_shape (n : Int) (hn : n ≠ 0) :
    decimalToZuglang 0 = "A" ∧
    decimalToZuglang (-5) = "-F" ∧
    decimalToZuglang (-((n.natAbs : Nat) : Int)) =
      "-" ++ decimalToZuglang ((n.natAbs : Nat) : Int) ∧
    zuglangToDecimal (decimalToZuglang ((n.natAbs : Nat) : Int)) = .ok n.natAbs ∧
    (decimalToZuglang ((n.natAbs : Nat) : Int)).data.head? ≠ some 'A' := by
  have hm : n.natAbs ≠ 0 := Int.natAbs_ne_zero.mpr hn
  have hm0 : ((n.natAbs : Nat) : Int) ≠ 0 := by exact_mod_cast hm
  have hmneg : ¬ (((n.natAbs : Nat) : Int) < 0) := by omega
  refine ⟨by decide, by decide, ?_, roundtrip_nat n.natAbs, ?_⟩
  · have hnegz : (-((n.natAbs : Nat) : Int)) ≠ 0 := by omega
    have hneglt : (-((n.natAbs : Nat) : Int)) < 0 := by omega
    simp only [decimalToZuglang, if_neg hm0, if_neg hmneg, if_neg hnegz, if_pos hneglt,
      Int.natAbs_neg, Int.natAbs_ofNat]
  · simp only [decimalToZuglang, if_neg hm0, if_neg hmneg, Int.natAbs_ofNat]
    obtain ⟨c, t, heq, hne, -⟩ := toZugLoop_head n.natAbs n.natAbs hm le_rfl
    rw [heq]
    simp only [String.data, List.head?_cons, ne_eq, Option.some.injEq]
    exact hne

/-- C6 witness: the encoder shape at the concrete input -37. -/
theorem c6_encoder_shape_witness :
    decimalToZuglang 0 = "A" ∧
    decimalToZuglang (-5) = "-F" ∧
    decimalToZuglang (-((Int.natAbs (-37) : Nat) : Int)) =
      "-" ++ decimalToZuglang ((Int.natAbs (-37) : Nat) : Int) ∧
    zuglangToDecimal (decimalToZuglang ((Int.natAbs (-37) : Nat) : Int)) =
      .ok (Int.natAbs (-37)) ∧
    (decimalToZuglang ((Int.natAbs (-37) : Nat) : Int)).data.head? ≠ some 'A' :=
  c6_encoder_shape (-37) (by decide)

